import Mathlib

/-!
Verification development for the `lol-predictions` prediction engine
(`src/lol_predictor/predictor.py` and `src/lol_predictor/data_collector.py`).

Python dictionaries are modelled as association lists (`List (String × α)`)
with insertion-order semantics: assigning to an existing key updates the
entry in place, assigning a fresh key appends at the end.  Python floats are
modelled as real numbers, Python ints as `ℤ` (tallies) or `ℕ` (counters).
-/

namespace LolPred

/-- Lookup in an association list: the value stored at the first occurrence
of key `k`, or `none`.  Models Python `d.get(k)` / `d[k]` membership tests. -/
def lookup? {α : Type} : List (String × α) → String → Option α
  | [], _ => none
  | (k', v) :: rest, k => if k' = k then some v else lookup? rest k

/-- Dictionary assignment `d[k] = v`: update in place if `k` is present,
otherwise append `(k, v)` at the end (Python dicts preserve insertion order). -/
def setKey {α : Type} : List (String × α) → String → α → List (String × α)
  | [], k, v => [(k, v)]
  | (k', v') :: rest, k, v =>
      if k' = k then (k, v) :: rest else (k', v') :: setKey rest k v

/-- Keys of an association list. -/
def keys {α : Type} (l : List (String × α)) : List String :=
  l.map Prod.fst

@[simp] theorem lookup?_nil {α : Type} (k : String) :
    lookup? ([] : List (String × α)) k = none := rfl

@[simp] theorem lookup?_cons {α : Type} (k' k : String) (v : α) (rest : List (String × α)) :
    lookup? ((k', v) :: rest) k = if k' = k then some v else lookup? rest k := rfl

theorem lookup?_setKey_self {α : Type} (l : List (String × α)) (k : String) (v : α) :
    lookup? (setKey l k v) k = some v := by
  induction l with
  | nil => simp [setKey]
  | cons p rest ih =>
      obtain ⟨k', v'⟩ := p
      by_cases h : k' = k <;> simp [setKey, h, ih]

theorem lookup?_setKey_ne {α : Type} (l : List (String × α)) (k k' : String) (v : α)
    (h : k' ≠ k) : lookup? (setKey l k v) k' = lookup? l k' := by
  induction l with
  | nil =>
      have hk : ¬ k = k' := fun hh => h hh.symm
      simp [setKey, lookup?, hk]
  | cons p rest ih =>
      obtain ⟨k₀, v₀⟩ := p
      by_cases h₀ : k₀ = k
      · subst h₀
        have hk : ¬ k₀ = k' := fun hh => h hh.symm
        simp [setKey, lookup?, hk]
      · simp only [setKey, if_neg h₀, lookup?_cons, ih]

theorem setKey_of_lookup?_none {α : Type} (l : List (String × α)) (k : String) (v : α)
    (h : lookup? l k = none) : setKey l k v = l ++ [(k, v)] := by
  induction l with
  | nil => simp [setKey]
  | cons p rest ih =>
      obtain ⟨k₀, v₀⟩ := p
      by_cases h₀ : k₀ = k
      · simp [h₀] at h
      · simp only [lookup?_cons, if_neg h₀] at h
        simp [setKey, h₀, ih h]

theorem lookup?_append_right {α : Type} (l m : List (String × α)) (k : String)
    (h : lookup? l k = none) : lookup? (l ++ m) k = lookup? m k := by
  induction l with
  | nil => simp
  | cons p rest ih =>
      obtain ⟨k₀, v₀⟩ := p
      by_cases h₀ : k₀ = k
      · simp [h₀] at h
      · simp only [lookup?_cons, if_neg h₀] at h
        simp [lookup?, h₀, ih h]

theorem lookup?_append_left {α : Type} (l m : List (String × α)) (k : String) (v : α)
    (h : lookup? l k = some v) : lookup? (l ++ m) k = some v := by
  induction l with
  | nil => simp at h
  | cons p rest ih =>
      obtain ⟨k₀, v₀⟩ := p
      by_cases h₀ : k₀ = k
      · simp [lookup?, h₀] at h ⊢; exact h
      · simp only [lookup?_cons, if_neg h₀] at h
        simp [lookup?, h₀, ih h]

theorem setKey_append_self {α : Type} (l : List (String × α)) (k : String) (b v : α)
    (h : lookup? l k = none) : setKey (l ++ [(k, b)]) k v = l ++ [(k, v)] := by
  induction l with
  | nil => simp [setKey]
  | cons p rest ih =>
      obtain ⟨k₀, v₀⟩ := p
      by_cases h₀ : k₀ = k
      · simp [h₀] at h
      · simp only [lookup?_cons, if_neg h₀] at h
        simp [setKey, h₀, ih h]

theorem mem_setKey {α : Type} (l : List (String × α)) (k : String) (v : α)
    (p : String × α) (hp : p ∈ setKey l k v) : p = (k, v) ∨ p ∈ l := by
  induction l with
  | nil => simpa [setKey] using hp
  | cons q rest ih =>
      obtain ⟨k₀, v₀⟩ := q
      by_cases h₀ : k₀ = k
      · simp only [setKey, if_pos h₀, List.mem_cons] at hp
        rcases hp with h | h
        · exact Or.inl h
        · exact Or.inr (List.mem_cons_of_mem _ h)
      · simp only [setKey, if_neg h₀, List.mem_cons] at hp
        rcases hp with h | h
        · exact Or.inr (h ▸ List.mem_cons_self _ _)
        · rcases ih h with h' | h'
          · exact Or.inl h'
          · exact Or.inr (List.mem_cons_of_mem _ h')

theorem lookup?_eq_none_iff {α : Type} (l : List (String × α)) (k : String) :
    lookup? l k = none ↔ k ∉ keys l := by
  induction l with
  | nil => simp [keys]
  | cons p rest ih =>
      obtain ⟨k₀, v₀⟩ := p
      by_cases h₀ : k₀ = k
      · simp [lookup?, keys, h₀]
      · rw [lookup?_cons, if_neg h₀, ih]
        show _ ↔ k ∉ k₀ :: keys rest
        simp only [List.mem_cons, not_or]
        exact ⟨fun hn => ⟨fun hh => h₀ hh.symm, hn⟩, fun hn => hn.2⟩

theorem keys_setKey_none {α : Type} (l : List (String × α)) (k : String) (v : α)
    (h : lookup? l k = none) : keys (setKey l k v) = keys l ++ [k] := by
  rw [setKey_of_lookup?_none l k v h]
  simp [keys]

theorem keys_setKey_some {α : Type} (l : List (String × α)) (k : String) (v w : α)
    (h : lookup? l k = some w) : keys (setKey l k v) = keys l := by
  induction l with
  | nil => simp at h
  | cons p rest ih =>
      obtain ⟨k₀, v₀⟩ := p
      by_cases h₀ : k₀ = k
      · simp [setKey, keys, h₀]
      · simp only [lookup?_cons, if_neg h₀] at h
        simp only [setKey, if_neg h₀, keys, List.map_cons]
        rw [show List.map Prod.fst (setKey rest k v) = keys (setKey rest k v) from rfl, ih h]
        rfl

theorem nodup_keys_setKey {α : Type} (l : List (String × α)) (k : String) (v : α)
    (h : (keys l).Nodup) : (keys (setKey l k v)).Nodup := by
  cases h₁ : lookup? l k with
  | none =>
      rw [keys_setKey_none l k v h₁]
      rw [List.nodup_append]
      refine ⟨h, List.nodup_singleton k, ?_⟩
      intro x hx hb
      simp only [List.mem_singleton] at hb
      subst hb
      exact ((lookup?_eq_none_iff l _).mp h₁) hx
  | some w => rw [keys_setKey_some l k v w h₁]; exact h

theorem setKey_ne_nil {α : Type} (l : List (String × α)) (k : String) (v : α) :
    setKey l k v ≠ [] := by
  cases l with
  | nil => simp [setKey]
  | cons p rest =>
      obtain ⟨k₀, v₀⟩ := p
      by_cases h₀ : k₀ = k <;> simp [setKey, h₀]

/-! ### RatingStore (`EloRating` in `predictor.py`) -/

/-- State of `EloRating`: configurable K-factor and initial rating, plus the
id → rating dictionary. -/
structure EloRating where
  k_factor : ℝ
  initial_rating : ℝ
  ratings : List (String × ℝ)

/-- `EloRating()` with the default arguments `k_factor=32`, `initial_rating=1500`. -/
def EloRating.default : EloRating := ⟨32, 1500, []⟩

/-- `EloRating.get_rating`: the stored rating, or `initial_rating` if never seen. -/
def EloRating.get_rating (e : EloRating) (team_id : String) : ℝ :=
  (lookup? e.ratings team_id).getD e.initial_rating

/-- `EloRating.expected_score`: logistic expectation
`1 / (1 + 10 ** ((rating_b - rating_a) / 400))`. -/
noncomputable def expected_score (rating_a rating_b : ℝ) : ℝ :=
  1 / (1 + (10 : ℝ) ^ ((rating_b - rating_a) / 400))

/-- `EloRating.update_ratings`: both expected scores are computed from the
pre-update ratings, the step size is `k_factor * (1 + 0.1 * score_margin)`,
the winner receives `adjusted_k * (1 - expected_winner)` and the loser
`adjusted_k * (0 - expected_loser)`. -/
noncomputable def EloRating.update_ratings (e : EloRating)
    (winner_id loser_id : String) (score_margin : ℝ) : EloRating :=
  let winner_rating := e.get_rating winner_id
  let loser_rating := e.get_rating loser_id
  let expected_winner := expected_score winner_rating loser_rating
  let expected_loser := expected_score loser_rating winner_rating
  let adjusted_k := e.k_factor * (1 + 0.1 * score_margin)
  { e with
      ratings :=
        setKey (setKey e.ratings winner_id (winner_rating + adjusted_k * (1 - expected_winner)))
          loser_id (loser_rating + adjusted_k * (0 - expected_loser)) }

/-- `EloRating.predict`: the pair of expected scores in both directions. -/
noncomputable def EloRating.predict (e : EloRating) (team1_id team2_id : String) : ℝ × ℝ :=
  let r1 := e.get_rating team1_id
  let r2 := e.get_rating team2_id
  (expected_score r1 r2, expected_score r2 r1)

theorem rpow_base10_pos (x : ℝ) : 0 < (10 : ℝ) ^ x :=
  Real.rpow_pos_of_pos (by norm_num) x

theorem expected_score_pos (ra rb : ℝ) : 0 < expected_score ra rb := by
  unfold expected_score
  have h := rpow_base10_pos ((rb - ra) / 400)
  positivity

theorem expected_score_lt_one (ra rb : ℝ) : expected_score ra rb < 1 := by
  unfold expected_score
  have h := rpow_base10_pos ((rb - ra) / 400)
  rw [div_lt_one (by linarith)]
  linarith

theorem expected_score_add_swap (ra rb : ℝ) :
    expected_score ra rb + expected_score rb ra = 1 := by
  unfold expected_score
  have hswap : (ra - rb) / 400 = -((rb - ra) / 400) := by ring
  have hneg : (10 : ℝ) ^ ((ra - rb) / 400) = ((10 : ℝ) ^ ((rb - ra) / 400))⁻¹ := by
    rw [hswap, Real.rpow_neg (by norm_num)]
  have ht := rpow_base10_pos ((rb - ra) / 400)
  rw [hneg]
  field_simp
  ring

theorem expected_score_same (r : ℝ) : expected_score r r = 1 / 2 := by
  unfold expected_score
  norm_num

/-! ### PairwiseHistory (`HeadToHead` in `predictor.py`) -/

/-- Inner dictionary of `HeadToHead.records`: opponent id → `(wins, losses)`
from the canonical (lexicographically smaller) team's perspective. -/
abbrev Bucket := List (String × (ℤ × ℤ))

/-- `HeadToHead.records`: a `defaultdict(dict)` keyed by the canonical
(smaller) id of each pair. -/
abbrev Records := List (String × Bucket)

/-- Python `tuple(sorted([team1_id, team2_id]))` for two strings. -/
def sortPair (a b : String) : String × String :=
  if b < a then (b, a) else (a, b)

/-- Accessing `records[t1]` on a `defaultdict(dict)`: returns the stored inner
dict, or inserts and returns an empty one when `t1` is absent. -/
def ddAccess (r : Records) (k : String) : Bucket × Records :=
  match lookup? r k with
  | some inner => (inner, r)
  | none => ([], r ++ [(k, [])])

/-- `HeadToHead.add_result`: canonicalize the pair, read the current tally
(defaulting to `(0, 0)`), and increment the side that won.  The `defaultdict`
access followed by the two nested assignments amounts to `setKey` on the
outer dict with the updated inner dict. -/
def HeadToHead.add_result (r : Records) (team1_id team2_id : String)
    (team1_won : Bool) : Records :=
  let t1 := (sortPair team1_id team2_id).1
  let t2 := (sortPair team1_id team2_id).2
  let inner := (lookup? r t1).getD []
  let wl := (lookup? inner t2).getD (0, 0)
  let nv :=
    if (team1_id = t1 ∧ team1_won = true) ∨ (team1_id = t2 ∧ team1_won = false) then
      (wl.1 + 1, wl.2)
    else
      (wl.1, wl.2 + 1)
  setKey r t1 (setKey inner t2 nv)

/-- `HeadToHead.get_record`: canonicalize, read the tally, reorient to the
caller's argument order.  The `defaultdict` access `self.records[t1]` mutates
the outer dict when `t1` is absent, so the (possibly changed) records are
returned alongside the value. -/
def HeadToHead.get_record (r : Records) (team1_id team2_id : String) :
    (ℤ × ℤ) × Records :=
  let t1 := (sortPair team1_id team2_id).1
  let t2 := (sortPair team1_id team2_id).2
  let res := ddAccess r t1
  match lookup? res.1 t2 with
  | none => ((0, 0), res.2)
  | some wl => (if team1_id = t1 then (wl.1, wl.2) else (wl.2, wl.1), res.2)

/-- Value component of `get_record` (the tuple the caller receives). -/
def getRecordVal (r : Records) (a b : String) : ℤ × ℤ :=
  (HeadToHead.get_record r a b).1

/-! ### FormAggregator pieces (`data_collector.py`) -/

/-- The fields of the `TeamStats` dataclass that the win-rate reads use. -/
structure TeamStats where
  team_id : String
  team_name : String
  team_code : String
  wins : ℕ
  losses : ℕ
  games_played : ℕ

/-- `TeamStats.win_rate` property: `0.0` when `games_played == 0`, else
`wins / games_played`. -/
noncomputable def TeamStats.win_rate (s : TeamStats) : ℝ :=
  if s.games_played = 0 then 0 else (s.wins : ℝ) / (s.games_played : ℝ)

/-- `DataCollector._get_team_win_rate`: `0.5` for a team absent from
`team_stats`, otherwise the `win_rate` property of its stats record. -/
noncomputable def get_team_win_rate (team_stats : List (String × TeamStats)) (team_id : String) : ℝ :=
  match lookup? team_stats team_id with
  | none => 0.5
  | some s => s.win_rate

/-! ### PredictionEngine (`MatchPredictor` in `predictor.py`) -/

/-- The `Prediction` dataclass. -/
structure Prediction where
  team1_name : String
  team2_name : String
  predicted_winner : String
  team1_win_probability : ℝ
  team2_win_probability : ℝ
  confidence : String
  factors : List (String × ℝ)

/-- State of a `MatchPredictor` (the `data_dir` path is I/O plumbing and
carries no model state). -/
structure MatchPredictor where
  elo : EloRating
  h2h : Records
  team_stats : List (String × TeamStats)
  team_names : List (String × String)

/-- A freshly constructed `MatchPredictor()`: default Elo store, empty
head-to-head records, no team stats, no names. -/
def MatchPredictor.fresh : MatchPredictor :=
  ⟨EloRating.default, [], [], []⟩

/-- `MatchPredictor.predict`: blend the Elo expectation, the head-to-head
ratio (omitted from `factors` when the pair never met) and the win-rate ratio
(omitted when either team has no stats record) with fixed weights
`0.5 / 0.25 / 0.25`; omitted factors enter the sum at the neutral value
`0.5`.  The head-to-head read can vivify an outer key, hence the updated
predictor is returned as well. -/
noncomputable def MatchPredictor.predict (p : MatchPredictor)
    (team1_id team2_id : String) : Prediction × MatchPredictor :=
  let elo_p := p.elo.predict team1_id team2_id
  let factors0 := [("elo", elo_p.1)]
  let h2hRes := HeadToHead.get_record p.h2h team1_id team2_id
  let h2h_record := h2hRes.1
  let h2h_games := h2h_record.1 + h2h_record.2
  let h2hStep :=
    if h2h_games > 0 then
      let f := (h2h_record.1 : ℝ) / (h2h_games : ℝ)
      (f, factors0 ++ [("head_to_head", f)])
    else
      ((0.5 : ℝ), factors0)
  let h2h_factor := h2hStep.1
  let factors1 := h2hStep.2
  let formStep :=
    match lookup? p.team_stats team1_id, lookup? p.team_stats team2_id with
    | some s1, some s2 =>
        let t1_wr := s1.win_rate
        let t2_wr := s2.win_rate
        let f := if t1_wr + t2_wr > 0 then t1_wr / (t1_wr + t2_wr) else 0.5
        (f, factors1 ++ [("win_rate", f)])
    | _, _ => ((0.5 : ℝ), factors1)
  let form_factor := formStep.1
  let factors2 := formStep.2
  let team1_prob := 0.5 * elo_p.1 + 0.25 * h2h_factor + 0.25 * form_factor
  let team2_prob := 1 - team1_prob
  let prob_diff := |team1_prob - team2_prob|
  let confidence :=
    if prob_diff > 0.3 then "high" else if prob_diff > 0.15 then "medium" else "low"
  let team1_name := (lookup? p.team_names team1_id).getD team1_id
  let team2_name := (lookup? p.team_names team2_id).getD team2_id
  let predicted_winner := if team1_prob > team2_prob then team1_name else team2_name
  (⟨team1_name, team2_name, predicted_winner, team1_prob, team2_prob, confidence,
      factors2⟩,
    { p with h2h := h2hRes.2 })

/-- The `MatchRecord` dataclass from `data_collector.py`. -/
structure MatchRecord where
  match_id : String
  tournament_id : String
  tournament_name : String
  date : String
  team1_id : String
  team1_name : String
  team1_code : String
  team2_id : String
  team2_name : String
  team2_code : String
  winner_id : String
  winner_code : String
  team1_score : ℤ
  team2_score : ℤ
  num_games : ℤ
  team1_win_rate : ℝ
  team2_win_rate : ℝ
  team1_recent_form : ℝ
  team2_recent_form : ℝ

/-- `MatchPredictor._predict_internal`: `None` when neither team has an Elo
rating yet, otherwise the Elo prediction pair. -/
noncomputable def MatchPredictor.predict_internal (p : MatchPredictor)
    (team1_id team2_id : String) : Option (ℝ × ℝ) :=
  if lookup? p.elo.ratings team1_id = none ∧ lookup? p.elo.ratings team2_id = none then
    none
  else
    some (p.elo.predict team1_id team2_id)

/-- One iteration of the training loop in `MatchPredictor.train`: store the
team names, attempt a self-validation prediction when `total_predictions > 20`,
update the Elo ratings with the winner first and the absolute score margin,
and record the head-to-head result.  The state is
`(predictor, correct_predictions, total_predictions)`. -/
noncomputable def trainStep (st : MatchPredictor × ℕ × ℕ) (m : MatchRecord) :
    MatchPredictor × ℕ × ℕ :=
  let p0 := st.1
  let correct := st.2.1
  let total := st.2.2
  let p1 : MatchPredictor :=
    { p0 with
        team_names :=
          setKey (setKey p0.team_names m.team1_id m.team1_name) m.team2_id m.team2_name }
  let counters :=
    if total > 20 then
      match p1.predict_internal m.team1_id m.team2_id with
      | some pred =>
          let predicted_winner := if pred.1 > pred.2 then m.team1_id else m.team2_id
          (if predicted_winner = m.winner_id then correct + 1 else correct, total + 1)
      | none => (correct, total)
    else
      (correct, total)
  let team1_won : Bool := m.winner_id = m.team1_id
  let score_margin : ℝ := ((m.team1_score - m.team2_score).natAbs : ℝ)
  let elo1 :=
    if team1_won then p1.elo.update_ratings m.team1_id m.team2_id score_margin
    else p1.elo.update_ratings m.team2_id m.team1_id score_margin
  let h2h1 := HeadToHead.add_result p1.h2h m.team1_id m.team2_id team1_won
  ({ p1 with elo := elo1, h2h := h2h1 }, counters)

/-- `MatchPredictor.train`: sort the matches by date (Python `sorted` is a
stable merge sort on the `date` key), run the training loop, then replace
`team_stats` with the stats loaded from the collector's data file (modelled
here by the `loaded_stats` argument).  Returns the updated predictor together
with the final `(correct_predictions, total_predictions)` counters. -/
noncomputable def MatchPredictor.train (p : MatchPredictor)
    (ms : List MatchRecord) (loaded_stats : List (String × TeamStats)) :
    MatchPredictor × ℕ × ℕ :=
  let sorted_matches := ms.mergeSort (fun a b => a.date ≤ b.date)
  let res := sorted_matches.foldl trainStep (p, 0, 0)
  ({ res.1 with team_stats := loaded_stats }, res.2)

/-! ### ModelPersistence (`save_model` / `load_model` in `predictor.py`)

JSON values as Python's `json` module produces them: objects keep key order,
ints and floats are distinct. -/

inductive Json where
  | null : Json
  | bool (b : Bool) : Json
  | str (s : String) : Json
  | int (n : ℤ) : Json
  | num (x : ℝ) : Json
  | arr (xs : List Json) : Json
  | obj (fields : List (String × Json)) : Json

def Json.asObj : Json → Option (List (String × Json))
  | .obj fields => some fields
  | _ => none

def Json.asNum : Json → Option ℝ
  | .num x => some x
  | .int n => some (n : ℝ)
  | _ => none

def Json.asStr : Json → Option String
  | .str s => some s
  | _ => none

/-- Decoding of a two-element integer array, as `tuple(record)` produces a
pair from the `[wins, losses]` arrays that `json.dump` wrote. -/
def Json.asIntPair : Json → Option (ℤ × ℤ)
  | .arr [.int w, .int l] => some (w, l)
  | _ => none

/-- JSON form of the ratings dictionary (float values). -/
def encodeRatings (l : List (String × ℝ)) : Json :=
  .obj (l.map fun kv => (kv.1, .num kv.2))

/-- JSON form of the id → name dictionary. -/
def encodeNames (l : List (String × String)) : Json :=
  .obj (l.map fun kv => (kv.1, .str kv.2))

/-- JSON form of one inner head-to-head dictionary: each `(w, l)` tuple is
dumped as the two-element array `[w, l]`. -/
def encodeBucket (inner : Bucket) : Json :=
  .obj (inner.map fun kv2 => (kv2.1, .arr [.int kv2.2.1, .int kv2.2.2]))

/-- JSON form of the nested head-to-head records. -/
def encodeH2h (r : Records) : Json :=
  .obj (r.map fun kv => (kv.1, encodeBucket kv.2))

/-- `MatchPredictor.save_model`: the serialized `model_data` object with the
ratings, the id → name mapping and the nested head-to-head records. -/
def MatchPredictor.save_model (p : MatchPredictor) : Json :=
  .obj
    [("elo_ratings", encodeRatings p.elo.ratings),
     ("team_names", encodeNames p.team_names),
     ("h2h_records", encodeH2h p.h2h)]

/-- What the model file held when `load_model` ran: absent, present but not
valid JSON (so `json.load` raises), or a parsed JSON value. -/
inductive ModelFile where
  | missing : ModelFile
  | invalidJson : ModelFile
  | content (j : Json) : ModelFile

/-- Result of `load_model`: returned `False` (missing file, state untouched),
raised an exception (carrying the in-memory state at the moment of the
raise), or returned `True` with the loaded state. -/
inductive LoadResult where
  | noModel (p : MatchPredictor) : LoadResult
  | raised (p : MatchPredictor) : LoadResult
  | loaded (p : MatchPredictor) : LoadResult

/-- Python stores `model_data.get("elo_ratings", {})` without validation; the
typed model decodes each member as a number.  Exact whenever the value is an
object whose members are JSON numbers, which is the only shape the theorems
below feed it. -/
noncomputable def decodeNumMap (j : Json) : List (String × ℝ) :=
  (j.asObj.getD []).map fun kv => (kv.1, (kv.2.asNum).getD 0)

/-- Counterpart of `decodeNumMap` for `team_names`; exact on objects of
strings. -/
def decodeStrMap (j : Json) : List (String × String) :=
  (j.asObj.getD []).map fun kv => (kv.1, (kv.2.asStr).getD "")

/-- One assignment `self.h2h.records[k][k2] = tuple(record)`: the
`defaultdict` access vivifies the bucket for `k`, then `k2` is set in it. -/
def h2hSet (r : Records) (k k2 : String) (rec : ℤ × ℤ) : Records :=
  setKey r k (setKey ((lookup? r k).getD []) k2 rec)

/-- The inner loop `for k2, record in v.items()` of `load_model`: each record
must decode as an integer pair (`tuple(record)` raises on a non-sequence),
and failures surface as `Except.error` carrying the records built so far. -/
def loadBucket (r : Records) (k : String) : List (String × Json) → Except Records Records
  | [] => .ok r
  | (k2, recJson) :: rest =>
      match recJson.asIntPair with
      | none => .error r
      | some wl => loadBucket (h2hSet r k k2 wl) k rest

/-- The outer loop `for k, v in h2h_data.items()` of `load_model`: each `v`
must be an object (`v.items()` raises otherwise). -/
def loadH2hEntries (r : Records) : List (String × Json) → Except Records Records
  | [] => .ok r
  | (k, v) :: rest =>
      match v.asObj with
      | none => .error r
      | some inner =>
          match loadBucket r k inner with
          | .error r1 => .error r1
          | .ok r1 => loadH2hEntries r1 rest

/-- `MatchPredictor.load_model`: a missing file returns `False` immediately;
an unparseable file raises inside `json.load` before any mutation; otherwise
`elo.ratings` and `team_names` are overwritten first, and only then are the
head-to-head records rebuilt — a failure there raises after those two
overwrites have already happened. -/
noncomputable def MatchPredictor.load_model (p : MatchPredictor) (file : ModelFile) :
    LoadResult :=
  match file with
  | .missing => .noModel p
  | .invalidJson => .raised p
  | .content j =>
      match j.asObj with
      | none => .raised p
      | some fields =>
          let p1 : MatchPredictor :=
            { p with
                elo := { p.elo with
                  ratings := decodeNumMap ((lookup? fields "elo_ratings").getD (.obj [])) },
                team_names := decodeStrMap ((lookup? fields "team_names").getD (.obj [])) }
          let h2h_data := (lookup? fields "h2h_records").getD (.obj [])
          match h2h_data.asObj with
          | none => .raised p1
          | some outer =>
              match loadH2hEntries p1.h2h outer with
              | .error r1 => .raised { p1 with h2h := r1 }
              | .ok r1 => .loaded { p1 with h2h := r1 }

/-! ### Theorems about the rating update -/

theorem get_rating_update_winner (e : EloRating) (winner loser : String)
    (margin : ℝ) (hne : winner ≠ loser) :
    (e.update_ratings winner loser margin).get_rating winner
      = e.get_rating winner
        + e.k_factor * (1 + 0.1 * margin)
          * (1 - expected_score (e.get_rating winner) (e.get_rating loser)) := by
  unfold EloRating.update_ratings EloRating.get_rating
  rw [lookup?_setKey_ne _ _ _ _ hne, lookup?_setKey_self]
  rfl

theorem get_rating_update_loser (e : EloRating) (winner loser : String) (margin : ℝ) :
    (e.update_ratings winner loser margin).get_rating loser
      = e.get_rating loser
        + e.k_factor * (1 + 0.1 * margin)
          * (0 - expected_score (e.get_rating loser) (e.get_rating winner)) := by
  unfold EloRating.update_ratings EloRating.get_rating
  rw [lookup?_setKey_self]
  rfl

/-- C5: for distinct winner and loser, a positive K-factor and margin ≥ 0,
`update_ratings` computes both expected scores from the pre-update ratings
and applies the step size `k_factor * (1 + 0.1 * margin)`; the winner's
rating strictly increases, the loser's strictly decreases, and if the winner
was rated at least as high as the loser before the update then it is rated
strictly higher afterwards. -/
theorem elo_update_strict_monotone (e : EloRating) (winner loser : String)
    (margin : ℝ) (hne : winner ≠ loser) (hk : 0 < e.k_factor) (hm : 0 ≤ margin) :
    (e.update_ratings winner loser margin).get_rating winner
        = e.get_rating winner
          + e.k_factor * (1 + 0.1 * margin)
            * (1 - expected_score (e.get_rating winner) (e.get_rating loser))
    ∧ (e.update_ratings winner loser margin).get_rating loser
        = e.get_rating loser
          - e.k_factor * (1 + 0.1 * margin)
            * expected_score (e.get_rating loser) (e.get_rating winner)
    ∧ e.get_rating winner < (e.update_ratings winner loser margin).get_rating winner
    ∧ (e.update_ratings winner loser margin).get_rating loser < e.get_rating loser
    ∧ (e.get_rating loser ≤ e.get_rating winner →
        (e.update_ratings winner loser margin).get_rating loser
          < (e.update_ratings winner loser margin).get_rating winner) := by
  have hw := get_rating_update_winner e winner loser margin hne
  have hl := get_rating_update_loser e winner loser margin
  have hl' : (e.update_ratings winner loser margin).get_rating loser
      = e.get_rating loser
        - e.k_factor * (1 + 0.1 * margin)
          * expected_score (e.get_rating loser) (e.get_rating winner) := by
    rw [hl]; ring
  have hkpos : 0 < e.k_factor * (1 + 0.1 * margin) := by
    have h1 : (0 : ℝ) < 1 + 0.1 * margin := by nlinarith
    exact mul_pos hk h1
  have hew := expected_score_lt_one (e.get_rating winner) (e.get_rating loser)
  have hel := expected_score_pos (e.get_rating loser) (e.get_rating winner)
  have hwin : e.get_rating winner < (e.update_ratings winner loser margin).get_rating winner := by
    rw [hw]; nlinarith
  have hlos : (e.update_ratings winner loser margin).get_rating loser < e.get_rating loser := by
    rw [hl']; nlinarith
  refine ⟨hw, hl', hwin, hlos, fun hle => ?_⟩
  calc (e.update_ratings winner loser margin).get_rating loser
      < e.get_rating loser := hlos
    _ ≤ e.get_rating winner := hle
    _ < (e.update_ratings winner loser margin).get_rating winner := hwin

/-- Witness for C5 at the default store, winner `"a"`, loser `"b"`, margin 1. -/
theorem elo_update_strict_monotone_witness :
    (("a" : String) ≠ "b" ∧ (0 : ℝ) < EloRating.default.k_factor ∧ (0 : ℝ) ≤ 1)
    ∧ (EloRating.default.get_rating "a"
          < (EloRating.default.update_ratings "a" "b" 1).get_rating "a"
        ∧ (EloRating.default.update_ratings "a" "b" 1).get_rating "b"
          < EloRating.default.get_rating "b") :=
  ⟨⟨by decide, by norm_num [EloRating.default], by norm_num⟩,
    ⟨(elo_update_strict_monotone EloRating.default "a" "b" 1 (by decide)
        (by norm_num [EloRating.default]) (by norm_num)).2.2.1,
      (elo_update_strict_monotone EloRating.default "a" "b" 1 (by decide)
        (by norm_num [EloRating.default]) (by norm_num)).2.2.2.1⟩⟩

/-- C10: for distinct winner and loser and any margin, `update_ratings`
conserves the sum of the two participants' ratings: the winner's gain
`adjusted_k * (1 - expected_winner)` equals the loser's loss
`adjusted_k * expected_loser`. -/
theorem elo_update_conserves_sum (e : EloRating) (winner loser : String)
    (margin : ℝ) (hne : winner ≠ loser) :
    (e.update_ratings winner loser margin).get_rating winner
      + (e.update_ratings winner loser margin).get_rating loser
      = e.get_rating winner + e.get_rating loser := by
  rw [get_rating_update_winner e winner loser margin hne,
    get_rating_update_loser e winner loser margin]
  have hsum := expected_score_add_swap (e.get_rating winner) (e.get_rating loser)
  linear_combination (-(e.k_factor * (1 + 0.1 * margin))) * hsum

/-- Witness for C10 at the default store, winner `"a"`, loser `"b"`, margin 2. -/
theorem elo_update_conserves_sum_witness :
    ("a" : String) ≠ "b"
    ∧ (EloRating.default.update_ratings "a" "b" 2).get_rating "a"
        + (EloRating.default.update_ratings "a" "b" 2).get_rating "b"
        = EloRating.default.get_rating "a" + EloRating.default.get_rating "b" :=
  ⟨by decide, elo_update_conserves_sum EloRating.default "a" "b" 2 (by decide)⟩

/-! ### Theorems about the win-rate reads -/

/-- A stats entry whose record exists but shows zero games played, as
`load_data` can produce from a stats file (all counters default to 0). -/
def zeroGamesStats : List (String × TeamStats) :=
  [("a", ⟨"a", "Alpha", "AL", 0, 0, 0⟩)]

/-- Counterexample to C4: for an entity that is present in `team_stats` but
has `games_played == 0`, the win-rate read returns `0.0`, not the neutral
`0.5` the claim asserts. -/
theorem win_rate_zero_games_counterexample :
    (lookup? zeroGamesStats "a").isSome = true
    ∧ get_team_win_rate zeroGamesStats "a" = 0
    ∧ get_team_win_rate zeroGamesStats "a" ≠ 0.5 := by
  refine ⟨rfl, ?_, ?_⟩
  · simp [get_team_win_rate, zeroGamesStats, lookup?, TeamStats.win_rate]
  · simp [get_team_win_rate, zeroGamesStats, lookup?, TeamStats.win_rate]
    norm_num

/-- C4 amended: the win-rate read returns `wins / games_played` for an entity
with at least one recorded game, the neutral `0.5` for an entity never seen,
and `0.0` (not `0.5`) for an entity whose stats record has
`games_played == 0`. -/
theorem win_rate_read_amended (stats : List (String × TeamStats)) (team_id : String) :
    (lookup? stats team_id = none → get_team_win_rate stats team_id = 0.5)
    ∧ (∀ s, lookup? stats team_id = some s → 0 < s.games_played →
        get_team_win_rate stats team_id = (s.wins : ℝ) / (s.games_played : ℝ))
    ∧ (∀ s, lookup? stats team_id = some s → s.games_played = 0 →
        get_team_win_rate stats team_id = 0) := by
  refine ⟨fun h => ?_, fun s hs hpos => ?_, fun s hs h0 => ?_⟩
  · simp [get_team_win_rate, h]
  · simp [get_team_win_rate, hs, TeamStats.win_rate, hpos.ne']
  · simp [get_team_win_rate, hs, TeamStats.win_rate, h0]

/-- Stats entry with 3 wins out of 4 games, for the witness below. -/
def someGamesStats : List (String × TeamStats) :=
  [("a", ⟨"a", "Alpha", "AL", 3, 1, 4⟩)]

/-- Witness for the amended C4: a 3-of-4 record reads as 3/4, an unseen id
reads as 0.5. -/
theorem win_rate_read_amended_witness :
    get_team_win_rate someGamesStats "a" = (3 : ℝ) / 4
    ∧ get_team_win_rate someGamesStats "zz" = 0.5 := by
  constructor
  · have h := (win_rate_read_amended someGamesStats "a").2.1
      ⟨"a", "Alpha", "AL", 3, 1, 4⟩ rfl (by norm_num)
    simpa using h
  · exact (win_rate_read_amended someGamesStats "zz").1 rfl

/-! ### Theorems about the head-to-head tracker -/

theorem ddAccess_fst (r : Records) (k : String) :
    (ddAccess r k).1 = (lookup? r k).getD [] := by
  unfold ddAccess
  cases lookup? r k <;> rfl

theorem get_record_snd (r : Records) (a b : String) :
    (HeadToHead.get_record r a b).2 = (ddAccess r (sortPair a b).1).2 := by
  unfold HeadToHead.get_record
  cases hx : lookup? (ddAccess r (sortPair a b).1).1 (sortPair a b).2 <;> simp [hx]

/-- Value of `get_record` as a pure function of the stored mapping. -/
theorem getRecordVal_eq (r : Records) (a b : String) :
    getRecordVal r a b =
      match lookup? ((lookup? r (sortPair a b).1).getD []) (sortPair a b).2 with
      | none => (0, 0)
      | some wl => if a = (sortPair a b).1 then (wl.1, wl.2) else (wl.2, wl.1) := by
  unfold getRecordVal HeadToHead.get_record
  cases hx : lookup? ((lookup? r (sortPair a b).1).getD []) (sortPair a b).2 <;>
    simp [ddAccess_fst, hx]

theorem sortPair_comm (a b : String) : sortPair b a = sortPair a b := by
  unfold sortPair
  rcases lt_trichotomy a b with h | h | h
  · simp [h, not_lt_of_gt h]
  · simp [h]
  · simp [h, not_lt_of_gt h]

/-- Reciprocity of `get_record` for distinct identifiers, over any stored
mapping whatsoever. -/
theorem get_record_swap (r : Records) (a b : String) (hab : a ≠ b) :
    getRecordVal r a b = Prod.swap (getRecordVal r b a) := by
  rw [getRecordVal_eq, getRecordVal_eq, sortPair_comm a b]
  cases hx : lookup? ((lookup? r (sortPair a b).1).getD []) (sortPair a b).2 with
  | none => rfl
  | some wl =>
      rcases lt_trichotomy a b with h | h | h
      · have h1 : (sortPair a b).1 = a := by simp [sortPair, not_lt_of_gt h]
        have hba : ¬ b = a := fun hh => hab hh.symm
        rw [h1]
        simp [hba, Prod.swap]
      · exact absurd h hab
      · have h1 : (sortPair a b).1 = b := by simp [sortPair, h]
        rw [h1]
        simp [hab, Prod.swap]

/-- The two operations a `HeadToHead` instance exposes. -/
inductive H2hOp where
  | add (team1_id team2_id : String) (team1_won : Bool) : H2hOp
  | read (team1_id team2_id : String) : H2hOp

/-- Effect of one operation on the stored records (a `read` keeps only the
state change of the `defaultdict` access). -/
def applyOp (r : Records) : H2hOp → Records
  | .add a b w => HeadToHead.add_result r a b w
  | .read a b => (HeadToHead.get_record r a b).2

/-- The records reached from a freshly constructed `HeadToHead` by a sequence
of operations. -/
def applyOps (ops : List H2hOp) : Records :=
  ops.foldl applyOp []

/-- An operation records a result for the unordered pair `{a, b}`. -/
def touchesPair (a b : String) : H2hOp → Prop
  | .add x y _ => sortPair x y = sortPair a b
  | .read _ _ => False

/-- Counterexample to C6: the reachable state after `add_result("x","x",True)`
(one self-match) answers `get_record("x","x")` with `(1, 0)`, which is not
reciprocal to itself. -/
theorem get_record_reciprocal_counterexample :
    getRecordVal (applyOps [H2hOp.add "x" "x" true]) "x" "x"
      ≠ Prod.swap (getRecordVal (applyOps [H2hOp.add "x" "x" true]) "x" "x") := by
  have hxx : ¬ ("x" : String) < "x" := by simp [String.lt_iff_toList_lt]
  have h1 : applyOps [H2hOp.add "x" "x" true] = [("x", [("x", ((1 : ℤ), (0 : ℤ)))])] := by
    simp [applyOps, applyOp, HeadToHead.add_result, sortPair, hxx, lookup?, setKey]
  rw [h1]
  have h2 : getRecordVal [("x", [("x", ((1 : ℤ), (0 : ℤ)))])] "x" "x" = (1, 0) := by
    simp [getRecordVal_eq, sortPair, hxx, lookup?]
  rw [h2]
  decide

/-- The canonical-pair bucket entry the never-met invariant tracks. -/
def pairEntry (r : Records) (a b : String) : Option (ℤ × ℤ) :=
  lookup? ((lookup? r (sortPair a b).1).getD []) (sortPair a b).2

theorem pairEntry_applyOp_none (r : Records) (a b : String) (op : H2hOp)
    (hop : ¬ touchesPair a b op) (h : pairEntry r a b = none) :
    pairEntry (applyOp r op) a b = none := by
  cases op with
  | read x y =>
      show pairEntry (HeadToHead.get_record r x y).2 a b = none
      rw [get_record_snd]
      unfold ddAccess
      cases hk : lookup? r (sortPair x y).1 with
      | some inner => exact h
      | none =>
          unfold pairEntry at h ⊢
          by_cases ht : (sortPair a b).1 = (sortPair x y).1
          · rw [ht, lookup?_append_right _ _ _ (ht ▸ hk)]
            simp [lookup?]
          · cases hv : lookup? r (sortPair a b).1 with
            | some inner2 =>
                rw [lookup?_append_left _ _ _ _ hv]
                rw [hv] at h
                exact h
            | none =>
                rw [lookup?_append_right _ _ _ hv]
                have hne : (sortPair x y).1 ≠ (sortPair a b).1 := fun hh => ht hh.symm
                rw [hv] at h
                simp [lookup?, hne]
  | add x y w =>
      show pairEntry (HeadToHead.add_result r x y w) a b = none
      have hop' : ¬ sortPair x y = sortPair a b := hop
      unfold pairEntry at h ⊢
      simp only [HeadToHead.add_result]
      by_cases ht : (sortPair x y).1 = (sortPair a b).1
      · have ht2 : (sortPair a b).2 ≠ (sortPair x y).2 := by
          intro hh
          exact hop' (Prod.ext ht hh.symm)
        rw [ht, lookup?_setKey_self]
        simp only [Option.getD_some]
        rw [lookup?_setKey_ne _ _ _ _ ht2, ht] at *
        exact h
      · have ht1 : (sortPair a b).1 ≠ (sortPair x y).1 := fun hh => ht hh.symm
        rw [lookup?_setKey_ne _ _ _ _ ht1]
        exact h

theorem pairEntry_applyOps_none (ops : List H2hOp) (a b : String)
    (h : ∀ op ∈ ops, ¬ touchesPair a b op) :
    pairEntry (applyOps ops) a b = none := by
  suffices hgen : ∀ r, pairEntry r a b = none →
      pairEntry (ops.foldl applyOp r) a b = none by
    exact hgen [] (by simp [pairEntry, lookup?])
  induction ops with
  | nil => intro r hr; exact hr
  | cons op rest ih =>
      intro r hr
      simp only [List.foldl_cons]
      exact ih (fun o ho => h o (List.mem_cons_of_mem _ ho))
        (applyOp r op)
        (pairEntry_applyOp_none r a b op (h op (List.mem_cons_self _ _)) hr)

/-- C6 amended: for two distinct identifiers, `get_record(a,b)` and
`get_record(b,a)` are reciprocal tuples on every reachable state, and the
record of a pair for which no result was ever recorded reads as `(0, 0)`.
(For `a = b`, a recorded self-match breaks reciprocity, see the
counterexample.) -/
theorem get_record_reciprocal_amended (ops : List H2hOp) (a b : String) (hab : a ≠ b) :
    getRecordVal (applyOps ops) a b = Prod.swap (getRecordVal (applyOps ops) b a)
    ∧ ((∀ op ∈ ops, ¬ touchesPair a b op) →
        getRecordVal (applyOps ops) a b = (0, 0)) := by
  refine ⟨get_record_swap _ a b hab, fun h => ?_⟩
  have hnone := pairEntry_applyOps_none ops a b h
  rw [getRecordVal_eq]
  unfold pairEntry at hnone
  rw [hnone]

/-- Witness for the amended C6: one recorded result between `"a"` and `"c"`,
queried for the distinct, never-met pair `("a", "b")`. -/
theorem get_record_reciprocal_amended_witness :
    ("a" : String) ≠ "b"
    ∧ (getRecordVal (applyOps [H2hOp.add "a" "c" true]) "a" "b"
          = Prod.swap (getRecordVal (applyOps [H2hOp.add "a" "c" true]) "b" "a")
        ∧ ((∀ op ∈ [H2hOp.add "a" "c" true], ¬ touchesPair "a" "b" op) →
            getRecordVal (applyOps [H2hOp.add "a" "c" true]) "a" "b" = (0, 0))) :=
  ⟨by decide, get_record_reciprocal_amended [H2hOp.add "a" "c" true] "a" "b" (by decide)⟩

/-- Counterexample to C7: on the freshly constructed (empty) records, a
single `get_record` call changes the stored mapping — the `defaultdict`
access inserts the outer key `"a"` with an empty inner dictionary. -/
theorem get_record_mutates_counterexample :
    (HeadToHead.get_record [] "a" "b").2 = [("a", ([] : Bucket))]
    ∧ ([("a", ([] : Bucket))] : Records) ≠ [] := by
  have hba : ¬ ("b" : String) < "a" := by simp [String.lt_iff_toList_lt]; decide
  constructor
  · rw [get_record_snd]
    simp [ddAccess, sortPair, hba, lookup?]
  · simp

/-- C7 amended: `get_record` alters no stored tally and changes the value of
no later read, but when the canonical (smaller) key of the queried pair is
absent from the outer mapping it appends that key with an empty inner
dictionary. -/
theorem get_record_read_effect (r : Records) (a b : String) :
    (HeadToHead.get_record r a b).2
        = (match lookup? r (sortPair a b).1 with
            | some _ => r
            | none => r ++ [((sortPair a b).1, [])])
    ∧ ∀ x y : String,
        getRecordVal (HeadToHead.get_record r a b).2 x y = getRecordVal r x y := by
  constructor
  · rw [get_record_snd]
    unfold ddAccess
    cases lookup? r (sortPair a b).1 <;> rfl
  · intro x y
    rw [get_record_snd]
    unfold ddAccess
    cases hk : lookup? r (sortPair a b).1 with
    | some inner => rfl
    | none =>
        rw [getRecordVal_eq, getRecordVal_eq]
        by_cases ht : (sortPair x y).1 = (sortPair a b).1
        · rw [ht, lookup?_append_right _ _ _ hk, hk]
          simp [lookup?]
        · cases hv : lookup? r (sortPair x y).1 with
          | some inner2 => rw [lookup?_append_left _ _ _ _ hv]
          | none =>
              rw [lookup?_append_right _ _ _ hv]
              simp [lookup?, Ne.symm ht]

/-! ### Theorems about the training loop counters -/

theorem trainStep_counters_zero (st : MatchPredictor × ℕ × ℕ) (m : MatchRecord)
    (h : st.2 = (0, 0)) : (trainStep st m).2 = (0, 0) := by
  unfold trainStep
  rw [h]
  norm_num

theorem foldl_trainStep_counters_zero (l : List MatchRecord)
    (st : MatchPredictor × ℕ × ℕ) (h : st.2 = (0, 0)) :
    (l.foldl trainStep st).2 = (0, 0) := by
  induction l generalizing st with
  | nil => exact h
  | cons m rest ih =>
      simp only [List.foldl_cons]
      exact ih _ (trainStep_counters_zero st m h)

/-! ### Theorems about `predict` -/

/-- C3: the blend always applies the fixed weights 0.5 / 0.25 / 0.25; a
factor omitted from the reported `factors` map still contributes the neutral
value 0.5 at its full weight (its weight is not redistributed). -/
theorem predict_blend_fixed_weights (p : MatchPredictor) (a b : String) :
    (p.predict a b).1.team1_win_probability
      = 0.5 * ((lookup? (p.predict a b).1.factors "elo").getD 0.5)
        + 0.25 * ((lookup? (p.predict a b).1.factors "head_to_head").getD 0.5)
        + 0.25 * ((lookup? (p.predict a b).1.factors "win_rate").getD 0.5) := by
  have e1 : ¬ ("elo" : String) = "head_to_head" := by decide
  have e2 : ¬ ("elo" : String) = "win_rate" := by decide
  have e3 : ¬ ("head_to_head" : String) = "win_rate" := by decide
  unfold MatchPredictor.predict
  by_cases h2 : ((HeadToHead.get_record p.h2h a b).1.1
      + (HeadToHead.get_record p.h2h a b).1.2 : ℤ) > 0
  · cases hs1 : lookup? p.team_stats a with
    | none => simp [h2, hs1, lookup?, e1, e2, e3]
    | some s1 =>
        cases hs2 : lookup? p.team_stats b with
        | none => simp [h2, hs1, hs2, lookup?, e1, e2, e3]
        | some s2 => simp [h2, hs1, hs2, lookup?, e1, e2, e3]
  · cases hs1 : lookup? p.team_stats a with
    | none => simp [h2, hs1, lookup?, e1, e2, e3]
    | some s1 =>
        cases hs2 : lookup? p.team_stats b with
        | none => simp [h2, hs1, hs2, lookup?, e1, e2, e3]
        | some s2 => simp [h2, hs1, hs2, lookup?, e1, e2, e3]

/-- C1: on a freshly constructed predictor (default ratings, no pairwise
records, no stats), `predict` of two distinct teams returns a 50/50 split,
confidence "low", and a factors map holding only the rating factor. -/
theorem predict_fresh_neutral (X Y : String) (hXY : X ≠ Y) :
    (MatchPredictor.fresh.predict X Y).1.team1_win_probability = 0.5
    ∧ (MatchPredictor.fresh.predict X Y).1.team2_win_probability = 0.5
    ∧ (MatchPredictor.fresh.predict X Y).1.confidence = "low"
    ∧ (MatchPredictor.fresh.predict X Y).1.factors = [("elo", 0.5)] := by
  have hrec : (HeadToHead.get_record ([] : Records) X Y).1 = (0, 0) := by
    rw [show (HeadToHead.get_record ([] : Records) X Y).1 = getRecordVal [] X Y from rfl,
      getRecordVal_eq]
    simp [lookup?]
  have helo : EloRating.default.predict X Y = (1/2, 1/2) := by
    simp [EloRating.predict, EloRating.get_rating, EloRating.default, lookup?,
      expected_score_same]
  unfold MatchPredictor.predict
  norm_num [MatchPredictor.fresh, helo, hrec, lookup?]

/-- Witness for C1 at `X = "x"`, `Y = "y"`. -/
theorem predict_fresh_neutral_witness :
    ("x" : String) ≠ "y"
    ∧ ((MatchPredictor.fresh.predict "x" "y").1.team1_win_probability = 0.5
      ∧ (MatchPredictor.fresh.predict "x" "y").1.team2_win_probability = 0.5
      ∧ (MatchPredictor.fresh.predict "x" "y").1.confidence = "low"
      ∧ (MatchPredictor.fresh.predict "x" "y").1.factors = [("elo", 0.5)]) :=
  ⟨by decide, predict_fresh_neutral "x" "y" (by decide)⟩

/-- C2 is violated by the code: the guard `total_predictions > 20` tests the
very counter that is incremented only inside the guarded block, so it stays 0
forever — `train` never attempts a single self-validation prediction, and the
reported `(correct_predictions, total_predictions)` counters are `(0, 0)` for
every input, however long. -/
theorem train_validation_counters_zero (p : MatchPredictor) (ms : List MatchRecord)
    (loaded_stats : List (String × TeamStats)) :
    (p.train ms loaded_stats).2 = (0, 0) := by
  unfold MatchPredictor.train
  exact foldl_trainStep_counters_zero _ _ rfl

/-! ### Theorems about model persistence -/

/-- An in-memory state with one rating and one name, used to exhibit the
partial overwrite below. -/
def loadDemoState : MatchPredictor :=
  { elo := { k_factor := 32, initial_rating := 1500, ratings := [("a", 1600)] },
    h2h := [],
    team_stats := [],
    team_names := [("a", "Alpha")] }

/-- A syntactically valid model file whose `h2h_records` entry is a number,
so `model_data.get("h2h_records", {}).items()` raises `AttributeError`. -/
def badH2hFile : Json :=
  .obj [("elo_ratings", .obj []), ("team_names", .obj []), ("h2h_records", .int 5)]

/-- Counterexample to C9: a file whose `h2h_records` section cannot be decoded
makes `load_model` raise only after `elo.ratings` and `team_names` have been
overwritten — the failed load does not leave the in-memory state untouched. -/
theorem load_model_partial_overwrite_counterexample :
    MatchPredictor.load_model loadDemoState (.content badH2hFile)
        = .raised { loadDemoState with
            elo := { loadDemoState.elo with ratings := [] },
            team_names := [] }
    ∧ ({ loadDemoState with
          elo := { loadDemoState.elo with ratings := [] },
          team_names := [] } : MatchPredictor).elo.ratings
        ≠ loadDemoState.elo.ratings := by
  constructor
  · rfl
  · simp [loadDemoState]

/-- C9 amended: `load_model` tolerates a missing model file by returning
`False` with the state untouched, and a JSON parse failure raises before any
mutation; but a load that fails while decoding the `h2h_records` section
raises only after ratings and team names have been overwritten, so a failed
load can partially overwrite in-memory state (see the counterexample). -/
theorem load_model_missing_and_parse_failure (p : MatchPredictor) :
    MatchPredictor.load_model p .missing = .noModel p
    ∧ MatchPredictor.load_model p .invalidJson = .raised p :=
  ⟨rfl, rfl⟩

theorem mem_of_lookup?_some {α : Type} (l : List (String × α)) (k : String) (v : α)
    (h : lookup? l k = some v) : (k, v) ∈ l := by
  induction l with
  | nil => simp at h
  | cons p rest ih =>
      obtain ⟨k₀, v₀⟩ := p
      by_cases h₀ : k₀ = k
      · subst h₀
        rw [lookup?_cons, if_pos rfl] at h
        injection h with h
        subst h
        exact List.mem_cons_self _ _
      · rw [lookup?_cons, if_neg h₀] at h
        exact List.mem_cons_of_mem _ (ih h)

theorem decodeNumMap_encode (l : List (String × ℝ)) :
    decodeNumMap (encodeRatings l) = l := by
  induction l with
  | nil => rfl
  | cons kv rest ih =>
      show (kv.1, kv.2) :: decodeNumMap (encodeRatings rest) = kv :: rest
      rw [ih]

theorem decodeStrMap_encode (l : List (String × String)) :
    decodeStrMap (encodeNames l) = l := by
  induction l with
  | nil => rfl
  | cons kv rest ih =>
      show (kv.1, kv.2) :: decodeStrMap (encodeNames rest) = kv :: rest
      rw [ih]

theorem loadBucket_encode (xs : Bucket) (r : Records) (k : String) :
    loadBucket r k (xs.map fun kv2 => (kv2.1, .arr [.int kv2.2.1, .int kv2.2.2]))
      = .ok (xs.foldl (fun acc kv2 => h2hSet acc k kv2.1 kv2.2) r) := by
  induction xs generalizing r with
  | nil => rfl
  | cons kv rest ih =>
      simp only [List.map_cons, loadBucket, Json.asIntPair, List.foldl_cons]
      exact ih _

theorem h2hSet_fresh (r : Records) (k k2 : String) (v : ℤ × ℤ)
    (hk : lookup? r k = none) :
    h2hSet r k k2 v = r ++ [(k, [(k2, v)])] := by
  unfold h2hSet
  rw [hk]
  exact setKey_of_lookup?_none r k _ hk

theorem h2hSet_existing_last (acc : Records) (k k2 : String) (b : Bucket) (v : ℤ × ℤ)
    (hk : lookup? acc k = none) :
    h2hSet (acc ++ [(k, b)]) k k2 v = acc ++ [(k, setKey b k2 v)] := by
  unfold h2hSet
  have h1 : lookup? (acc ++ [(k, b)]) k = some b := by
    rw [lookup?_append_right _ _ _ hk]
    simp [lookup?]
  rw [h1]
  exact setKey_append_self acc k b _ hk

theorem foldl_h2hSet_start (xs : Bucket) (acc : Records) (k : String) (b : Bucket)
    (hk : lookup? acc k = none) :
    xs.foldl (fun a kv2 => h2hSet a k kv2.1 kv2.2) (acc ++ [(k, b)])
      = acc ++ [(k, xs.foldl (fun bb kv2 => setKey bb kv2.1 kv2.2) b)] := by
  induction xs generalizing b with
  | nil => rfl
  | cons kv rest ih =>
      simp only [List.foldl_cons]
      rw [h2hSet_existing_last acc k kv.1 b kv.2 hk]
      exact ih (setKey b kv.1 kv.2)

theorem foldl_setKey_eq_append (xs : Bucket) (b : Bucket)
    (hnd : (keys xs).Nodup) (hdisj : ∀ k2 ∈ keys xs, lookup? b k2 = none) :
    xs.foldl (fun bb kv2 => setKey bb kv2.1 kv2.2) b = b ++ xs := by
  induction xs generalizing b with
  | nil => simp
  | cons kv rest ih =>
      obtain ⟨k2, v⟩ := kv
      simp only [List.foldl_cons]
      rw [setKey_of_lookup?_none b k2 v (hdisj k2 (List.mem_cons_self _ _))]
      rw [ih (b ++ [(k2, v)]) ?_ ?_]
      · simp
      · simp only [keys, List.map_cons, List.nodup_cons] at hnd
        exact hnd.2
      · intro k3 hk3
        have hne : k2 ≠ k3 := by
          simp only [keys, List.map_cons, List.nodup_cons] at hnd
          exact fun hh => hnd.1 (hh ▸ hk3)
        rw [lookup?_append_right _ _ _ (hdisj k3 (List.mem_cons_of_mem _ hk3))]
        simp [lookup?, hne]

/-- Well-formedness of the stored head-to-head records after training: outer
keys are distinct, every inner dictionary is non-empty with distinct keys. -/
def GoodRecords (r : Records) : Prop :=
  (keys r).Nodup ∧ ∀ kv ∈ r, kv.2 ≠ [] ∧ (keys kv.2).Nodup

theorem goodRecords_setKey_bucket (r : Records) (t1 t2 : String) (nv : ℤ × ℤ)
    (h : GoodRecords r) :
    GoodRecords (setKey r t1 (setKey ((lookup? r t1).getD []) t2 nv)) := by
  obtain ⟨hnd, hmem⟩ := h
  refine ⟨nodup_keys_setKey _ _ _ hnd, ?_⟩
  intro kv hkv
  rcases mem_setKey _ _ _ _ hkv with heq | hin
  · subst heq
    refine ⟨setKey_ne_nil _ _ _, ?_⟩
    cases hv : lookup? r t1 with
    | none => simp [setKey, keys]
    | some inner =>
        have hinner := hmem (t1, inner) (mem_of_lookup?_some _ _ _ hv)
        exact nodup_keys_setKey _ _ _ hinner.2
  · exact hmem kv hin

theorem goodRecords_add_result (r : Records) (a b : String) (w : Bool)
    (h : GoodRecords r) : GoodRecords (HeadToHead.add_result r a b w) := by
  have hb := goodRecords_setKey_bucket r (sortPair a b).1 (sortPair a b).2
    (if (a = (sortPair a b).1 ∧ w = true) ∨ (a = (sortPair a b).2 ∧ w = false) then
      (((lookup? ((lookup? r (sortPair a b).1).getD []) (sortPair a b).2).getD (0, 0)).1 + 1,
        ((lookup? ((lookup? r (sortPair a b).1).getD []) (sortPair a b).2).getD (0, 0)).2)
     else
      (((lookup? ((lookup? r (sortPair a b).1).getD []) (sortPair a b).2).getD (0, 0)).1,
        ((lookup? ((lookup? r (sortPair a b).1).getD []) (sortPair a b).2).getD (0, 0)).2 + 1))
    h
  exact hb

theorem trainStep_h2h (st : MatchPredictor × ℕ × ℕ) (m : MatchRecord) :
    (trainStep st m).1.h2h
      = HeadToHead.add_result st.1.h2h m.team1_id m.team2_id
          (decide (m.winner_id = m.team1_id)) := rfl

theorem goodRecords_foldl_trainStep (l : List MatchRecord)
    (st : MatchPredictor × ℕ × ℕ) (h : GoodRecords st.1.h2h) :
    GoodRecords ((l.foldl trainStep st).1.h2h) := by
  induction l generalizing st with
  | nil => exact h
  | cons m rest ih =>
      simp only [List.foldl_cons]
      refine ih _ ?_
      rw [trainStep_h2h]
      exact goodRecords_add_result _ _ _ _ h

theorem goodRecords_train (p : MatchPredictor) (ms : List MatchRecord)
    (loaded_stats : List (String × TeamStats)) (h : GoodRecords p.h2h) :
    GoodRecords ((p.train ms loaded_stats).1.h2h) := by
  unfold MatchPredictor.train
  exact goodRecords_foldl_trainStep _ _ h

theorem encodeBucket_asObj (xs : Bucket) :
    (encodeBucket xs).asObj
      = some (xs.map fun kv2 => (kv2.1, .arr [.int kv2.2.1, .int kv2.2.2])) := rfl

/-- Rebuilding one non-empty bucket with distinct keys, fresh in the
accumulator, appends the bucket exactly as stored. -/
theorem loadBucket_encode_full (xs : Bucket) (r : Records) (k : String)
    (hk : lookup? r k = none) (hxs : xs ≠ []) (hnd : (keys xs).Nodup) :
    loadBucket r k (xs.map fun kv2 => (kv2.1, .arr [.int kv2.2.1, .int kv2.2.2]))
      = .ok (r ++ [(k, xs)]) := by
  cases xs with
  | nil => exact absurd rfl hxs
  | cons x xtail =>
      obtain ⟨xk, xv⟩ := x
      rw [loadBucket_encode]
      simp only [List.foldl_cons]
      have hstep1 : h2hSet r k xk xv = r ++ [(k, [(xk, xv)])] := h2hSet_fresh r k xk xv hk
      rw [hstep1, foldl_h2hSet_start xtail r k [(xk, xv)] hk]
      rw [foldl_setKey_eq_append xtail [(xk, xv)] ?_ ?_]
      · rfl
      · simp only [keys, List.map_cons, List.nodup_cons] at hnd
        exact hnd.2
      · intro k3 hk3
        have hne : xk ≠ k3 := by
          simp only [keys, List.map_cons, List.nodup_cons] at hnd
          exact fun hh => hnd.1 (hh ▸ hk3)
        simp [lookup?, hne]

theorem loadH2hEntries_encode (L : Records) (r : Records)
    (hnd : (keys L).Nodup)
    (hdisj : ∀ k ∈ keys L, lookup? r k = none)
    (hgood : ∀ kv ∈ L, kv.2 ≠ [] ∧ (keys kv.2).Nodup) :
    loadH2hEntries r (L.map fun kv => (kv.1, encodeBucket kv.2)) = .ok (r ++ L) := by
  induction L generalizing r with
  | nil => simp [loadH2hEntries]
  | cons kv rest ih =>
      obtain ⟨k, xs⟩ := kv
      obtain ⟨hxs, hxnd⟩ := hgood (k, xs) (List.mem_cons_self _ _)
      have hk : lookup? r k = none := hdisj k (List.mem_cons_self _ _)
      simp only [List.map_cons, loadH2hEntries, encodeBucket_asObj]
      rw [loadBucket_encode_full xs r k hk hxs hxnd]
      show loadH2hEntries (r ++ [(k, xs)])
            (List.map (fun kv => (kv.1, encodeBucket kv.2)) rest)
          = Except.ok (r ++ (k, xs) :: rest)
      rw [ih (r ++ [(k, xs)]) ?_ ?_ ?_]
      · rw [List.append_assoc]
        rfl
      · simp only [keys, List.map_cons, List.nodup_cons] at hnd
        exact hnd.2
      · intro k3 hk3
        have hne : k ≠ k3 := by
          simp only [keys, List.map_cons, List.nodup_cons] at hnd
          exact fun hh => hnd.1 (hh ▸ hk3)
        rw [lookup?_append_right _ _ _ (hdisj k3 (List.mem_cons_of_mem _ hk3))]
        simp [lookup?, hne]
      · intro kv2 hkv2
        exact hgood kv2 (List.mem_cons_of_mem _ hkv2)

/-- C8: round-trip persistence — loading the serialized form of any trained
state into a freshly constructed predictor reproduces the rating mapping, the
id → name mapping, and every pairwise record identically (each record coming
back as an integer pair). -/
theorem save_load_roundtrip (ms : List MatchRecord)
    (loaded_stats : List (String × TeamStats)) :
    ∃ q : MatchPredictor,
      MatchPredictor.load_model MatchPredictor.fresh
          (.content (MatchPredictor.save_model
            (MatchPredictor.fresh.train ms loaded_stats).1))
        = .loaded q
      ∧ q.elo.ratings = (MatchPredictor.fresh.train ms loaded_stats).1.elo.ratings
      ∧ q.team_names = (MatchPredictor.fresh.train ms loaded_stats).1.team_names
      ∧ q.h2h = (MatchPredictor.fresh.train ms loaded_stats).1.h2h := by
  have hs1 : ¬ ("elo_ratings" : String) = "team_names" := by decide
  have hs2 : ¬ ("elo_ratings" : String) = "h2h_records" := by decide
  have hs3 : ¬ ("team_names" : String) = "h2h_records" := by decide
  have hgood : GoodRecords (MatchPredictor.fresh.train ms loaded_stats).1.h2h :=
    goodRecords_train _ _ _ ⟨List.nodup_nil, by simp [MatchPredictor.fresh]⟩
  obtain ⟨hnd, hmem⟩ := hgood
  have hload : loadH2hEntries []
      ((MatchPredictor.fresh.train ms loaded_stats).1.h2h.map
        fun kv => (kv.1, encodeBucket kv.2))
      = .ok ((MatchPredictor.fresh.train ms loaded_stats).1.h2h) := by
    simpa using loadH2hEntries_encode (MatchPredictor.fresh.train ms loaded_stats).1.h2h
      [] hnd (fun k _ => rfl) hmem
  refine ⟨{ MatchPredictor.fresh with
      elo := { MatchPredictor.fresh.elo with
        ratings := (MatchPredictor.fresh.train ms loaded_stats).1.elo.ratings },
      team_names := (MatchPredictor.fresh.train ms loaded_stats).1.team_names,
      h2h := (MatchPredictor.fresh.train ms loaded_stats).1.h2h }, ?_, rfl, rfl, rfl⟩
  unfold MatchPredictor.load_model MatchPredictor.save_model
  simp only [Json.asObj, lookup?_cons, eq_self_iff_true, if_true, hs1, hs2, hs3, if_false,
    Option.getD_some, encodeH2h, MatchPredictor.fresh, decodeNumMap_encode, decodeStrMap_encode]
  simp only [MatchPredictor.fresh] at hload
  rw [hload]

end LolPred
